import Mathlib

/-!
Verification of the VarPredBrowser coordinate-mapping and scoring core.

Each Python source function relevant to the checked properties is shallowly
embedded as an executable Lean definition:

* `scripts/build_protein_map.py`   → `build_genomic_to_protein_map` and helpers
* `scripts/preprocess_browser_data.py` → `process_filter` and the sort model
* `scripts/calculate_percentiles.py`   → `exome_percentiles`, `add_cross_norm_percentiles`
* `browser/backend/coordinate_mapper.py` → `Mapper.genomic_to_protein`, …
* `browser/backend/app.py`         → `get_filtered_window`, `get_residue_scores`

Machine floats of the source are modelled as exact rationals; Python `None`
is `Option.none`; float NaN, where the source distinguishes it from `None`,
is a dedicated constructor.  Gene symbols are modelled as lists of ASCII
code points so that Python `str.upper` becomes an executable function.
-/

namespace VarPredBrowser

/-! ## Embedding of scripts/build_protein_map.py -/

/-- The 64-entry standard genetic code table (`CODON_TABLE` in the source). -/
def CODON_TABLE : List (String × Char) :=
  [("TTT", 'F'), ("TTC", 'F'), ("TTA", 'L'), ("TTG", 'L'),
   ("TCT", 'S'), ("TCC", 'S'), ("TCA", 'S'), ("TCG", 'S'),
   ("TAT", 'Y'), ("TAC", 'Y'), ("TAA", '*'), ("TAG", '*'),
   ("TGT", 'C'), ("TGC", 'C'), ("TGA", '*'), ("TGG", 'W'),
   ("CTT", 'L'), ("CTC", 'L'), ("CTA", 'L'), ("CTG", 'L'),
   ("CCT", 'P'), ("CCC", 'P'), ("CCA", 'P'), ("CCG", 'P'),
   ("CAT", 'H'), ("CAC", 'H'), ("CAA", 'Q'), ("CAG", 'Q'),
   ("CGT", 'R'), ("CGC", 'R'), ("CGA", 'R'), ("CGG", 'R'),
   ("ATT", 'I'), ("ATC", 'I'), ("ATA", 'I'), ("ATG", 'M'),
   ("ACT", 'T'), ("ACC", 'T'), ("ACA", 'T'), ("ACG", 'T'),
   ("AAT", 'N'), ("AAC", 'N'), ("AAA", 'K'), ("AAG", 'K'),
   ("AGT", 'S'), ("AGC", 'S'), ("AGA", 'R'), ("AGG", 'R'),
   ("GTT", 'V'), ("GTC", 'V'), ("GTA", 'V'), ("GTG", 'V'),
   ("GCT", 'A'), ("GCC", 'A'), ("GCA", 'A'), ("GCG", 'A'),
   ("GAT", 'D'), ("GAC", 'D'), ("GAA", 'E'), ("GAG", 'E'),
   ("GGT", 'G'), ("GGC", 'G'), ("GGA", 'G'), ("GGG", 'G')]

/-- One CDS genomic interval as handed to `build_genomic_to_protein_map`
(`region['start']`, `region['end']`, `region['seq_region_name']`).
`end` is a Lean keyword, so the field is called `stop`. -/
structure CdsRegion where
  start : Nat
  stop : Nat
  seq_region_name : String
deriving Repr, DecidableEq

/-- One output row of the mapping table (one dict appended to `mappings`). -/
structure PMapping where
  chrom : String
  pos : Nat
  cds_offset : Nat
  codon_position : Nat
  protein_residue : Nat
  ref_aa : Char
  strand : String
deriving Repr, DecidableEq

/-- Positions of one interval in genomic ascending order:
`list(range(start, end + 1))`. -/
def regionPositionsAsc (r : CdsRegion) : List Nat :=
  (List.range (r.stop + 1 - r.start)).map (fun i => r.start + i)

/-- The `cds_positions` list exactly as the source builds it: per region the
ascending positions, reversed per region when `strand == -1`, concatenated in
the given region order, and finally the whole list reversed again when
`strand == -1`. -/
def cdsPositionsCode (cds_regions : List CdsRegion) (strand : Int) : List (Nat × String) :=
  let per := cds_regions.flatMap (fun region =>
    let positions := regionPositionsAsc region
    let positions := if strand = -1 then positions.reverse else positions
    positions.map (fun p => (p, region.seq_region_name)))
  if strand = -1 then per.reverse else per

/-- The position list as §4.2 of the spec words it: concatenate the interval
position-lists in genomic ascending order and, for the minus strand, reverse
the *entire* concatenated list (not per-interval).  Kept separate from
`cdsPositionsCode` so the two can be compared. -/
def cdsPositionsSpec (cds_regions : List CdsRegion) (strand : Int) : List (Nat × String) :=
  let per := cds_regions.flatMap (fun region =>
    (regionPositionsAsc region).map (fun p => (p, region.seq_region_name)))
  if strand = -1 then per.reverse else per

/-- Reference amino acid of the codon window
`cds_offset // 3 * 3 .. + 3`, `'X'` when the window exceeds the sequence. -/
def refAaAt (cds_sequence : List Char) (cds_offset : Nat) : Char :=
  let codon_start := cds_offset / 3 * 3
  if codon_start + 3 ≤ cds_sequence.length then
    (CODON_TABLE.lookup (String.mk (((cds_sequence.drop codon_start).take 3).map Char.toUpper))).getD 'X'
  else 'X'

/-- Embedding of `build_genomic_to_protein_map(cds_sequence, cds_regions,
strand, chrom)`.  The `chrom` parameter of the source is unused in the body
(the chromosome comes from each region's `seq_region_name`), so it is
omitted here.  The function is total: the source contains no raise
statement, and `pl.DataFrame([])` on an empty mapping list is an ordinary
empty table. -/
def build_genomic_to_protein_map (cds_sequence : List Char)
    (cds_regions : List CdsRegion) (strand : Int) : List PMapping :=
  (cdsPositionsCode cds_regions strand).enum.map (fun pr =>
    let cds_offset := pr.1
    let genomic_pos := pr.2.1
    let seq_region := pr.2.2
    { chrom := if seq_region.startsWith "chr" then seq_region else "chr" ++ seq_region
      pos := genomic_pos
      cds_offset := cds_offset
      codon_position := cds_offset % 3 + 1
      protein_residue := cds_offset / 3 + 1
      ref_aa := refAaAt cds_sequence cds_offset
      strand := if strand = 1 then "+" else "-" })

/-- Two ascending, disjoint CDS intervals on a minus-strand transcript,
already sorted by `start` as the caller (`fetch_ensembl_cds`) sorts them. -/
def c1Regions : List CdsRegion :=
  [{ start := 1, stop := 2, seq_region_name := "2" },
   { start := 10, stop := 11, seq_region_name := "2" }]

/-- A four-base coding sequence for the two two-base intervals above. -/
def c1Cds : List Char := ['A', 'T', 'G', 'C']

/-- C1: on the minus strand the code reverses positions once per interval and
then once more over the whole list, so for the two-interval transcript
`c1Regions` the genomic positions come out `[10, 11, 1, 2]` — intervals in
descending order but ascending inside each interval.  The spec's reading
(reverse only the entire concatenated list) gives `[11, 10, 2, 1]`, and the
code's list is not strictly decreasing in genomic position. -/
theorem c1_minus_strand_double_reversal :
    (build_genomic_to_protein_map c1Cds c1Regions (-1)).map PMapping.pos = [10, 11, 1, 2]
    ∧ (cdsPositionsSpec c1Regions (-1)).map Prod.fst = [11, 10, 2, 1]
    ∧ ¬ List.Chain' (fun a b => b < a)
        ((build_genomic_to_protein_map c1Cds c1Regions (-1)).map PMapping.pos) := by
  have h1 : (build_genomic_to_protein_map c1Cds c1Regions (-1)).map PMapping.pos
      = [10, 11, 1, 2] := by decide
  refine ⟨h1, by decide, ?_⟩
  intro h
  rw [h1] at h
  exact absurd (List.chain'_cons.mp h).1 (by omega)

/-- C9 counterexample: on the inputs the claim says must fail (empty interval
list; empty CDS sequence) the builder returns an ordinary result — an empty
mapping table, and `'X'`-amino-acid rows respectively — with no failure. -/
theorem c9_no_failure_on_empty_inputs :
    build_genomic_to_protein_map [] [] (-1) = []
    ∧ (build_genomic_to_protein_map []
        [{ start := 1, stop := 2, seq_region_name := "2" }] 1).map PMapping.ref_aa
      = ['X', 'X'] := by
  exact ⟨by decide, by decide⟩

/-- C9 amended: `build_genomic_to_protein_map` has no failure path.  With an
empty interval list it returns the empty mapping table, and with an empty
CDS sequence every produced row carries `ref_aa = 'X'`. -/
theorem c9_amended_builder_is_total (cds : List Char) (strand : Int)
    (regions : List CdsRegion) :
    build_genomic_to_protein_map cds [] strand = []
    ∧ ∀ m ∈ build_genomic_to_protein_map [] regions strand, m.ref_aa = 'X' := by
  constructor
  · simp [build_genomic_to_protein_map, cdsPositionsCode]
  · intro m hm
    simp only [build_genomic_to_protein_map, List.mem_map] at hm
    obtain ⟨pr, _, rfl⟩ := hm
    simp [refAaAt]

/-- Witness for C9 amended at a concrete transcript. -/
theorem c9_amended_builder_is_total_witness :
    build_genomic_to_protein_map ['A'] [] 1 = []
    ∧ ({ chrom := "chr2", pos := 1, cds_offset := 0, codon_position := 1,
         protein_residue := 1, ref_aa := 'X', strand := "+" } : PMapping).ref_aa = 'X' := by
  refine ⟨(c9_amended_builder_is_total ['A'] 1 []).1, ?_⟩
  exact (c9_amended_builder_is_total ['A'] 1
    [{ start := 1, stop := 1, seq_region_name := "2" }]).2
    { chrom := "chr2", pos := 1, cds_offset := 0, codon_position := 1,
      protein_residue := 1, ref_aa := 'X', strand := "+" } (by decide)

/-! ## Embedding of scripts/preprocess_browser_data.py -/

/-- Chromosome sort order `CHROM_ORDER`: chr1..chr22, chrX, chrY, chrM. -/
def CHROM_ORDER : List String :=
  ((List.range 22).map (fun i => "chr" ++ toString (i + 1))) ++ ["chrX", "chrY", "chrM"]

/-- The rank map `chrom_order_map = {chrom: i for i, chrom in enumerate(CHROM_ORDER)}`
applied with `replace_strict(..., default=99)`: every chromosome name outside
`CHROM_ORDER` collapses to the single rank 99. -/
def chrom_order_map (c : String) : Nat :=
  ((CHROM_ORDER.enum.map (fun p => (p.2, p.1))).lookup c).getD 99

/-- One row of the upstream annotation table, reduced to the columns the sort
touches (`chrom_col`, `pos_col`); all other columns ride along untouched. -/
structure InputRow where
  chrom : String
  pos : Nat
deriving Repr, DecidableEq

/-- Sort key of a row: `(_chrom_order, pos)`. -/
def sortKey (r : InputRow) : Nat × Nat :=
  (chrom_order_map r.chrom, r.pos)

/-- Lexicographic non-strict order on sort keys. -/
def keyLeP (a b : Nat × Nat) : Prop :=
  a.1 < b.1 ∨ (a.1 = b.1 ∧ a.2 ≤ b.2)

/-- Lexicographic strict order on sort keys. -/
def keyLtP (a b : Nat × Nat) : Prop :=
  a.1 < b.1 ∨ (a.1 = b.1 ∧ a.2 < b.2)

instance (a b : Nat × Nat) : Decidable (keyLeP a b) := by
  unfold keyLeP
  exact inferInstance

instance (a b : Nat × Nat) : Decidable (keyLtP a b) := by
  unfold keyLtP
  exact inferInstance

/-- Row comparison used by the sort: `sort(['_chrom_order', pos_col])`. -/
def rowLe (a b : InputRow) : Prop :=
  keyLeP (sortKey a) (sortKey b)

/-- Strict row comparison. -/
def rowLt (a b : InputRow) : Prop :=
  keyLtP (sortKey a) (sortKey b)

instance : DecidableRel rowLe := fun a b => by
  unfold rowLe
  exact inferInstance

instance : DecidableRel rowLt := fun a b => by
  unfold rowLt
  exact inferInstance

instance : IsTotal InputRow rowLe where
  total a b := by
    unfold rowLe keyLeP
    omega

instance : IsTrans InputRow rowLe where
  trans a b c := by
    unfold rowLe keyLeP
    omega

instance : IsAntisymm InputRow rowLt where
  antisymm a b hab hba := by
    unfold rowLt keyLtP at hab hba
    omega

/-- Embedding of the sort-and-reindex core of `process_filter`: apply the
predicate, sort the survivors by `(_chrom_order, pos)`, then
`with_row_index('filtered_idx')`.  Polars' `sort` (with the default
`maintain_order=False`) is modelled here as a deterministic comparison sort
over the same key; the order of key-tied rows, which polars leaves
unspecified, is treated separately by `IsSortedOutput`. -/
def process_filter (df : List InputRow) (cond : InputRow → Bool) : List (Nat × InputRow) :=
  ((df.filter cond).insertionSort rowLe).enum

/-- C2 as the claim states it, for one input table and predicate: the
`filtered_idx` column is exactly `[0, N-1]` in order with
`N = #rows passing the predicate`, and two rows' indices compare exactly as
their `(chromosome_rank, pos)` keys do. -/
def axisIdxFaithful (df : List InputRow) (cond : InputRow → Bool) : Prop :=
  (process_filter df cond).length = (df.filter cond).length
  ∧ (process_filter df cond).map Prod.fst = List.range (process_filter df cond).length
  ∧ ∀ i j : Fin (process_filter df cond).length, (i : Nat) < (j : Nat) ↔
      keyLtP (sortKey ((process_filter df cond).get i).2)
        (sortKey ((process_filter df cond).get j).2)

/-- What the polars sort contract actually pins down for a `process_filter`
run: some permutation of the filtered rows that is non-strictly sorted by
`(_chrom_order, pos)`.  `filtered_idx` is then the position in this list. -/
def IsSortedOutput (df : List InputRow) (cond : InputRow → Bool) (out : List InputRow) : Prop :=
  (df.filter cond).Perm out ∧ List.Sorted rowLe out

/-- The deterministic model is one valid sorted output. -/
theorem process_filter_isSortedOutput (df : List InputRow) (cond : InputRow → Bool) :
    IsSortedOutput df cond ((process_filter df cond).map Prod.snd) := by
  unfold process_filter IsSortedOutput
  rw [List.enum_map_snd]
  exact ⟨(List.perm_insertionSort rowLe (df.filter cond)).symm,
    List.sorted_insertionSort rowLe (df.filter cond)⟩

/-- Rows whose keys differ and compare `≤` compare strictly. -/
theorem rowLt_of_rowLe_of_key_ne {a b : InputRow} (hle : rowLe a b)
    (hne : sortKey a ≠ sortKey b) : rowLt a b := by
  unfold rowLe keyLeP at hle
  unfold rowLt keyLtP
  rcases hle with h | ⟨h1, h2⟩
  · exact Or.inl h
  · refine Or.inr ⟨h1, lt_of_le_of_ne h2 ?_⟩
    intro h2eq
    exact hne (Prod.ext h1 h2eq)

/-- Key inequality is symmetric (needed to carry it across permutations). -/
theorem key_ne_symm : ∀ {a b : InputRow}, sortKey a ≠ sortKey b → sortKey b ≠ sortKey a :=
  fun h => fun he => h he.symm

/-- A valid sorted output whose rows have pairwise distinct keys is strictly
sorted. -/
theorem sorted_rowLt_of_output {df : List InputRow} {cond : InputRow → Bool}
    {out : List InputRow}
    (h : (df.filter cond).Pairwise (fun a b => sortKey a ≠ sortKey b))
    (hout : IsSortedOutput df cond out) : List.Sorted rowLt out := by
  have hne : out.Pairwise (fun a b => sortKey a ≠ sortKey b) :=
    (List.Perm.pairwise_iff (fun hx => key_ne_symm hx) hout.1).mp h
  exact (hout.2.and hne).imp (fun hc => rowLt_of_rowLe_of_key_ne hc.1 hc.2)

instance (df : List InputRow) (cond : InputRow → Bool) : Decidable (axisIdxFaithful df cond) := by
  unfold axisIdxFaithful
  exact inferInstance

/-- C2 counterexample: two rows on distinct unrecognized chromosomes at the
same position both collapse to rank 99, so the two sort keys are equal while
the two assigned `filtered_idx` values necessarily differ — the claimed
"index order iff key order" equivalence fails on this table. -/
theorem c2_counterexample :
    ¬ axisIdxFaithful
      [{ chrom := "chrZ", pos := 5 }, { chrom := "chrW", pos := 5 }]
      (fun _ => true) := by
  decide

/-- C2 amended: the `filtered_idx` column of `process_filter` is, for every
input table and predicate, the gapless, duplicate-free range `[0, N-1]` over
the `N` rows passing the predicate; and whenever no two surviving rows share
the sort key `(chromosome_rank, pos)` — in particular whenever `(chrom, pos)`
is unique and no two distinct unrecognized chromosome names occur at the
same position — two rows' indices compare exactly as their keys do. -/
theorem c2_amended_axis_index_faithful (df : List InputRow) (cond : InputRow → Bool) :
    (process_filter df cond).length = (df.filter cond).length
    ∧ (process_filter df cond).map Prod.fst = List.range (process_filter df cond).length
    ∧ ((df.filter cond).Pairwise (fun a b => sortKey a ≠ sortKey b) →
        ∀ i j : Fin (process_filter df cond).length, (i : Nat) < (j : Nat) ↔
          keyLtP (sortKey ((process_filter df cond).get i).2)
            (sortKey ((process_filter df cond).get j).2)) := by
  refine ⟨?_, ?_, ?_⟩
  · unfold process_filter
    rw [List.enum_length]
    exact ((df.filter cond).perm_insertionSort rowLe).length_eq
  · unfold process_filter
    rw [List.enum_length]
    exact List.enum_map_fst _
  · intro h i j
    have hsorted : List.Sorted rowLt ((process_filter df cond).map Prod.snd) :=
      sorted_rowLt_of_output h (process_filter_isSortedOutput df cond)
    have hlen : ((process_filter df cond).map Prod.snd).length
        = (process_filter df cond).length := List.length_map _ _
    have hget : ∀ k : Fin (process_filter df cond).length,
        ((process_filter df cond).map Prod.snd).get ⟨k, by rw [hlen]; exact k.isLt⟩
          = ((process_filter df cond).get k).2 := by
      intro k
      simp
    have hmono := List.pairwise_iff_get.mp hsorted
    constructor
    · intro hij
      have := hmono ⟨i, by rw [hlen]; exact i.isLt⟩ ⟨j, by rw [hlen]; exact j.isLt⟩ hij
      rw [hget i, hget j] at this
      exact this
    · intro hkey
      rcases Nat.lt_trichotomy (i : Nat) (j : Nat) with hlt | heq | hgt
      · exact hlt
      · exfalso
        have : i = j := Fin.ext heq
        subst this
        unfold keyLtP at hkey
        omega
      · exfalso
        have := hmono ⟨j, by rw [hlen]; exact j.isLt⟩ ⟨i, by rw [hlen]; exact i.isLt⟩ hgt
        rw [hget i, hget j] at this
        unfold rowLt at this
        unfold keyLtP at this hkey
        omega

/-- Witness for C2 amended on a three-row table with distinct keys
(spec Scenario A: chr1:100, chr1:200, chr2:50, predicate keeps all). -/
theorem c2_amended_axis_index_faithful_witness :
    (process_filter
        [{ chrom := "chr1", pos := 100 }, { chrom := "chr1", pos := 200 },
         { chrom := "chr2", pos := 50 }] (fun _ => true)).length
      = (([{ chrom := "chr1", pos := 100 }, { chrom := "chr1", pos := 200 },
          { chrom := "chr2", pos := 50 }] : List InputRow).filter (fun _ => true)).length
    ∧ (process_filter
        [{ chrom := "chr1", pos := 100 }, { chrom := "chr1", pos := 200 },
         { chrom := "chr2", pos := 50 }] (fun _ => true)).map Prod.fst
      = List.range (process_filter
          [{ chrom := "chr1", pos := 100 }, { chrom := "chr1", pos := 200 },
           { chrom := "chr2", pos := 50 }] (fun _ => true)).length
    ∧ ∀ i j : Fin (process_filter
        [{ chrom := "chr1", pos := 100 }, { chrom := "chr1", pos := 200 },
         { chrom := "chr2", pos := 50 }] (fun _ => true)).length,
        (i : Nat) < (j : Nat) ↔
          keyLtP
            (sortKey ((process_filter
              [{ chrom := "chr1", pos := 100 }, { chrom := "chr1", pos := 200 },
               { chrom := "chr2", pos := 50 }] (fun _ => true)).get i).2)
            (sortKey ((process_filter
              [{ chrom := "chr1", pos := 100 }, { chrom := "chr1", pos := 200 },
               { chrom := "chr2", pos := 50 }] (fun _ => true)).get j).2) := by
  have h := c2_amended_axis_index_faithful
    [{ chrom := "chr1", pos := 100 }, { chrom := "chr1", pos := 200 },
     { chrom := "chr2", pos := 50 }] (fun _ => true)
  exact ⟨h.1, h.2.1, h.2.2 (by decide)⟩

/-- C8 counterexample: for the same two-row table of distinct unrecognized
chromosomes at one position, both orderings of the two rows are permutations
of the filtered input sorted by `(_chrom_order, pos)` — the sort the code
requests (`maintain_order=False`) does not determine which assignment of
`filtered_idx` is produced. -/
theorem c8_counterexample :
    IsSortedOutput
      [{ chrom := "chrZ", pos := 5 }, { chrom := "chrW", pos := 5 }]
      (fun _ => true)
      [{ chrom := "chrZ", pos := 5 }, { chrom := "chrW", pos := 5 }]
    ∧ IsSortedOutput
      [{ chrom := "chrZ", pos := 5 }, { chrom := "chrW", pos := 5 }]
      (fun _ => true)
      [{ chrom := "chrW", pos := 5 }, { chrom := "chrZ", pos := 5 }]
    ∧ ([{ chrom := "chrZ", pos := 5 }, { chrom := "chrW", pos := 5 }] : List InputRow)
      ≠ [{ chrom := "chrW", pos := 5 }, { chrom := "chrZ", pos := 5 }] := by
  refine ⟨⟨by decide, by decide⟩, ⟨by decide, by decide⟩, by decide⟩

/-- C8 amended: when no two surviving rows share the sort key
`(chromosome_rank, pos)`, every run of the axis compression produces the same
row order and hence the identical `filtered_idx` assignment: any two outputs
satisfying the sort contract are equal. -/
theorem c8_amended_deterministic_when_keys_distinct (df : List InputRow)
    (cond : InputRow → Bool)
    (h : (df.filter cond).Pairwise (fun a b => sortKey a ≠ sortKey b))
    (out1 out2 : List InputRow)
    (h1 : IsSortedOutput df cond out1) (h2 : IsSortedOutput df cond out2) :
    out1 = out2 :=
  List.eq_of_perm_of_sorted (h1.1.symm.trans h2.1)
    (sorted_rowLt_of_output h h1) (sorted_rowLt_of_output h h2)

/-- Witness for C8 amended on a concrete two-row table with distinct keys. -/
theorem c8_amended_deterministic_witness :
    IsSortedOutput [{ chrom := "chr2", pos := 50 }, { chrom := "chr1", pos := 100 }]
      (fun _ => true)
      [{ chrom := "chr1", pos := 100 }, { chrom := "chr2", pos := 50 }]
    ∧ [({ chrom := "chr1", pos := 100 } : InputRow), { chrom := "chr2", pos := 50 }]
      = [{ chrom := "chr1", pos := 100 }, { chrom := "chr2", pos := 50 }] :=
  ⟨⟨by decide, by decide⟩,
    c8_amended_deterministic_when_keys_distinct
      [{ chrom := "chr2", pos := 50 }, { chrom := "chr1", pos := 100 }]
      (fun _ => true) (by decide)
      [{ chrom := "chr1", pos := 100 }, { chrom := "chr2", pos := 50 }]
      [{ chrom := "chr1", pos := 100 }, { chrom := "chr2", pos := 50 }]
      ⟨by decide, by decide⟩ ⟨by decide, by decide⟩⟩

/-! ## Embedding of scripts/calculate_percentiles.py -/

/-- Average rank — the semantics of polars `rank(method='average')` over the
non-null values of a column: `k` values tied at ranks `c+1 .. c+k` each
receive `c + (k+1)/2`.  Nulls take no rank. -/
def avg_rank (values : List ℚ) (v : ℚ) : ℚ :=
  ((values.filter (fun x => decide (x < v))).length : ℚ)
    + (((values.filter (fun x => decide (x = v))).length : ℚ) + 1) / 2

/-- Non-null entries of a column. -/
def nonNullValues (column : List (Option ℚ)) : List ℚ :=
  column.filterMap id

/-- The exome-wide percentile expression of `build_percentile_exprs` for one
non-null value: `rank(method='average') / non_null_count * 100`. -/
def exome_percentile_of (column : List (Option ℚ)) (v : ℚ) : ℚ :=
  avg_rank (nonNullValues column) v / ((nonNullValues column).length : ℚ) * 100

/-- The whole percentile column `build_percentile_exprs` produces: `none` when
the column has no non-null value (no expression is emitted then), otherwise
per-entry percentiles with nulls kept null. -/
def exome_percentiles (column : List (Option ℚ)) : Option (List (Option ℚ)) :=
  if (nonNullValues column).length = 0 then none
  else some (column.map (fun x => x.map (fun v => exome_percentile_of column v)))

/-- Counting the values below `v` and the values equal to `v` never exceeds
the total count. -/
theorem length_filter_lt_add_filter_eq_le (l : List ℚ) (v : ℚ) :
    (l.filter (fun x => decide (x < v))).length
      + (l.filter (fun x => decide (x = v))).length ≤ l.length := by
  induction l with
  | nil => simp
  | cons a t ih =>
    have hih := ih
    by_cases h1 : a < v
    · by_cases h2 : a = v
      · exact absurd (h2 ▸ h1) (lt_irrefl v)
      · simp [List.filter_cons, h1, h2]
        omega
    · by_cases h2 : a = v
      · simp [List.filter_cons, h1, h2]
        omega
      · simp [List.filter_cons, h1, h2]
        omega

/-- When `v` bounds the whole list from above, the below-`v` and equal-`v`
counts partition the list. -/
theorem length_filter_lt_add_filter_eq_of_max (l : List ℚ) (v : ℚ)
    (hle : ∀ w ∈ l, w ≤ v) :
    (l.filter (fun x => decide (x < v))).length
      + (l.filter (fun x => decide (x = v))).length = l.length := by
  induction l with
  | nil => simp
  | cons a t ih =>
    have ha : a ≤ v := hle a (List.mem_cons_self a t)
    have ht : ∀ w ∈ t, w ≤ v := fun w hw => hle w (List.mem_cons_of_mem a hw)
    have hih := ih ht
    rcases lt_or_eq_of_le ha with h1 | h2
    · have h2 : ¬ a = v := fun he => absurd (he ▸ h1) (lt_irrefl v)
      simp [List.filter_cons, h1, h2]
      omega
    · have h1 : ¬ a < v := by rw [h2]; exact lt_irrefl v
      simp [List.filter_cons, h1, h2]
      omega

/-- C4 counterexample: in the two-entry column `[1, 1]` the maximum value 1
is tied with itself, its average rank is `(1+2)/2 = 3/2`, and its computed
percentile is 75, not the 100 the claim asserts for the column maximum. -/
theorem c4_counterexample :
    exome_percentile_of [some 1, some 1] 1 = 75
    ∧ (∀ w ∈ nonNullValues [some (1 : ℚ), some 1], w ≤ 1)
    ∧ (75 : ℚ) ≠ 100
    ∧ exome_percentiles [some 1, some 1]
      = some [some (exome_percentile_of [some 1, some 1] 1),
          some (exome_percentile_of [some 1, some 1] 1)] := by
  have hp : exome_percentile_of [some 1, some 1] 1 = 75 := by
    unfold exome_percentile_of avg_rank nonNullValues
    rw [show (List.filter (fun x => decide (x < (1 : ℚ)))
        (List.filterMap id [some (1 : ℚ), some 1])).length = 0 from by decide]
    rw [show (List.filter (fun x => decide (x = (1 : ℚ)))
        (List.filterMap id [some (1 : ℚ), some 1])).length = 2 from by decide]
    rw [show (List.filterMap id [some (1 : ℚ), some 1]).length = 2 from by decide]
    norm_num
  refine ⟨hp, by decide, by norm_num, ?_⟩
  unfold exome_percentiles
  rw [if_neg (by decide)]
  rfl

/-- C4 amended: for a non-null value `v` of a column, the exome-wide
percentile is `average_rank(v) / non_null_count * 100`, always in `(0, 100]`;
the column maximum receives percentile 100 whenever it is attained by exactly
one non-null entry (with `k > 1` tied maxima it receives `(n-(k-1)/2)/n·100
< 100`, as the counterexample shows); nulls stay null and a column with no
non-null value produces no percentile column at all. -/
theorem c4_amended_percentile_bounds (column : List (Option ℚ)) (v : ℚ)
    (hv : some v ∈ column) :
    0 < exome_percentile_of column v
    ∧ exome_percentile_of column v ≤ 100
    ∧ ((∀ w ∈ nonNullValues column, w ≤ v) →
        ((nonNullValues column).filter (fun x => decide (x = v))).length = 1 →
        exome_percentile_of column v = 100)
    ∧ exome_percentiles column
      = some (column.map (fun x => x.map (fun w => exome_percentile_of column w))) := by
  have hvl : v ∈ nonNullValues column := by
    unfold nonNullValues
    exact List.mem_filterMap.mpr ⟨some v, hv, rfl⟩
  have hvf : v ∈ (nonNullValues column).filter (fun x => decide (x = v)) :=
    List.mem_filter.mpr ⟨hvl, by simp⟩
  have hk1 : 1 ≤ ((nonNullValues column).filter (fun x => decide (x = v))).length :=
    List.length_pos_of_mem hvf
  have hn0 : 0 < (nonNullValues column).length := List.length_pos_of_mem hvl
  have hnQ : (0 : ℚ) < ((nonNullValues column).length : ℚ) := by
    exact_mod_cast hn0
  have hck := length_filter_lt_add_filter_eq_le (nonNullValues column) v
  set c := ((nonNullValues column).filter (fun x => decide (x < v))).length with hc
  set k := ((nonNullValues column).filter (fun x => decide (x = v))).length with hkdef
  set n := (nonNullValues column).length with hndef
  have hrank : avg_rank (nonNullValues column) v = (c : ℚ) + ((k : ℚ) + 1) / 2 := rfl
  have hnum_pos : (0 : ℚ) < (c : ℚ) + ((k : ℚ) + 1) / 2 := by
    have : (0 : ℚ) ≤ (c : ℚ) := Nat.cast_nonneg c
    have hkQ : (1 : ℚ) ≤ (k : ℚ) := by exact_mod_cast hk1
    linarith
  have hnum_le : (c : ℚ) + ((k : ℚ) + 1) / 2 ≤ (n : ℚ) := by
    have hkQ : (1 : ℚ) ≤ (k : ℚ) := by exact_mod_cast hk1
    have hckQ : (c : ℚ) + (k : ℚ) ≤ (n : ℚ) := by exact_mod_cast hck
    linarith
  refine ⟨?_, ?_, ?_, ?_⟩
  · unfold exome_percentile_of
    rw [hrank]
    have := div_pos hnum_pos hnQ
    linarith
  · unfold exome_percentile_of
    rw [hrank, div_mul_eq_mul_div, div_le_iff₀ hnQ]
    linarith
  · intro hmax hkone
    unfold exome_percentile_of
    rw [hrank]
    have hpart := length_filter_lt_add_filter_eq_of_max (nonNullValues column) v hmax
    have hcn : c + k = n := hpart
    have hkQ : (k : ℚ) = 1 := by exact_mod_cast hkone
    have hcQ : (c : ℚ) + (k : ℚ) = (n : ℚ) := by exact_mod_cast hcn
    rw [hkQ] at hcQ ⊢
    have hnum : (c : ℚ) + ((1 : ℚ) + 1) / 2 = (n : ℚ) := by linarith
    rw [hnum]
    field_simp
  · unfold exome_percentiles
    rw [if_neg (by omega)]

/-- Witness for C4 amended: in the column `[1, 2]` the unique maximum 2
receives percentile 100 and both bounds hold for it. -/
theorem c4_amended_percentile_bounds_witness :
    0 < exome_percentile_of [some 1, some 2] 2
    ∧ exome_percentile_of [some 1, some 2] 2 ≤ 100
    ∧ exome_percentile_of [some 1, some 2] 2 = 100 := by
  have h := c4_amended_percentile_bounds [some 1, some 2] 2 (by decide)
  exact ⟨h.1, h.2.1, h.2.2.1 (by decide) (by decide)⟩

/-- The five designated stacked score columns of
`CROSS_NORM_STACKED_COLUMNS`: Constraint, Core, Complete,
AlphaMissense_stacked, ESM1b_stacked. -/
inductive StackedCol
  | constraintCol
  | coreCol
  | completeCol
  | alphaMissenseCol
  | esm1bCol
deriving Repr, DecidableEq

/-- All five designated columns. -/
def allStackedCols : List StackedCol :=
  [.constraintCol, .coreCol, .completeCol, .alphaMissenseCol, .esm1bCol]

/-- One variant struct inside a stacked array cell as
`add_cross_norm_percentiles` receives it (after the per-variant percentile
step): `alt`, the score field (`pred` or `score`), and `percentile`.  The
extra `n_pred` field of the three constraint columns is carried through
unchanged and irrelevant here. -/
structure StackedVariant where
  alt : String
  score : Option ℚ
  percentile : Option ℚ
deriving Repr, DecidableEq

/-- The same struct after the `cross_norm_perc` field is appended. -/
structure StackedVariantX where
  alt : String
  score : Option ℚ
  percentile : Option ℚ
  cross_norm_perc : Option ℚ
deriving Repr, DecidableEq

/-- One row of the merged table as seen by `add_cross_norm_percentiles`: the
gating column `max_RGC_MTR_MTR` plus the five stacked columns (all five are
present, the situation the designated-columns claim addresses; with fewer
than two the source returns its input unchanged, i.e. no variant gains a
cross-norm value either). -/
structure PercRow where
  mtr : Option ℚ
  stacked : StackedCol → List StackedVariant

/-- One output row, with `cross_norm_perc` added to every stacked variant and
the position-level `RGC_MTR_MTR_cross_norm_perc` column. -/
structure PercRowX where
  mtr : Option ℚ
  stacked : StackedCol → List StackedVariantX
  mtr_cross_norm_perc : Option ℚ

/-- The MTR-gated exploded entries of one stacked column: `(row_idx, alt)`
pairs of its variants, inner-joined to the rows where the gating column is
non-null. -/
def explodedEntries (df : List PercRow) (c : StackedCol) : List (Nat × String) :=
  (df.enum.filter (fun p => p.2.mtr.isSome)).flatMap
    (fun p => (p.2.stacked c).map (fun v => (p.1, v.alt)))

/-- The `(row_idx, alt)` pairs surviving the chain of inner joins: entries of
the first exploded column present in every other exploded column. -/
def joinedEntries (df : List PercRow) : List (Nat × String) :=
  (explodedEntries df StackedCol.constraintCol).filter
    (fun q => (explodedEntries df StackedCol.coreCol).contains q
      && (explodedEntries df StackedCol.completeCol).contains q
      && (explodedEntries df StackedCol.alphaMissenseCol).contains q
      && (explodedEntries df StackedCol.esm1bCol).contains q)

/-- Score of the `(row_idx, alt)` pair in one stacked column (the struct
field extracted while exploding). -/
def scoreAt (df : List PercRow) (c : StackedCol) (q : Nat × String) : Option ℚ :=
  match df.get? q.1 with
  | none => none
  | some row =>
    match (row.stacked c).find? (fun v => v.alt == q.2) with
    | none => none
    | some v => v.score

/-- Non-null scores of one column over the joined population. -/
def crossNormScores (df : List PercRow) (c : StackedCol) : List ℚ :=
  (joinedEntries df).filterMap (fun q => scoreAt df c q)

/-- Cross-norm percentile of a score within one column:
`rank(method='average') / cross_norm_count * 100`, the denominator being the
joined height. -/
def crossNormPercOf (df : List PercRow) (c : StackedCol) (s : ℚ) : ℚ :=
  avg_rank (crossNormScores df c) s / ((joinedEntries df).length : ℚ) * 100

/-- Distinct cross-norm positions (`joined.select('_row_idx').unique()`). -/
def mtrCrossPositions (df : List PercRow) : List Nat :=
  ((joinedEntries df).map Prod.fst).dedup

/-- Gating-column values over the distinct cross-norm positions. -/
def mtrCrossScores (df : List PercRow) : List ℚ :=
  (mtrCrossPositions df).filterMap (fun i => (df.get? i).bind (fun r => r.mtr))

/-- Embedding of `add_cross_norm_percentiles`: every stacked variant is
rebuilt with a `cross_norm_perc` field that is populated from the joined
lookup table by a left join on `(row_idx, alt)` — null whenever the pair is
not in the joined population — and each row gains the position-level
`RGC_MTR_MTR_cross_norm_perc` column by a left join on the distinct joined
row indices. -/
def add_cross_norm_percentiles (df : List PercRow) : List PercRowX :=
  df.enum.map (fun p =>
    { mtr := p.2.mtr
      stacked := fun c => (p.2.stacked c).map (fun v =>
        { alt := v.alt
          score := v.score
          percentile := v.percentile
          cross_norm_perc :=
            if (joinedEntries df).contains (p.1, v.alt) then
              (scoreAt df c (p.1, v.alt)).map (fun s => crossNormPercOf df c s)
            else none })
      mtr_cross_norm_perc :=
        if (mtrCrossPositions df).contains p.1 then
          p.2.mtr.map (fun s =>
            avg_rank (mtrCrossScores df) s / ((mtrCrossPositions df).length : ℚ) * 100)
        else none })

/-- Cross-normalization preserves the row count. -/
theorem add_cross_norm_percentiles_length (df : List PercRow) :
    (add_cross_norm_percentiles df).length = df.length := by
  unfold add_cross_norm_percentiles
  rw [List.length_map, List.enum_length]

/-- Every joined `(row_idx, alt)` pair points at a row whose gating column is
non-null. -/
theorem joined_mem_mtr_isSome (df : List PercRow) (q : Nat × String)
    (hq : q ∈ joinedEntries df) :
    ∃ h : q.1 < df.length, ((df.get ⟨q.1, h⟩).mtr).isSome := by
  have hq1 : q ∈ explodedEntries df StackedCol.constraintCol :=
    (List.mem_filter.mp hq).1
  unfold explodedEntries at hq1
  obtain ⟨p, hp, hqp⟩ := List.mem_flatMap.mp hq1
  obtain ⟨hpe, hpm⟩ := List.mem_filter.mp hp
  obtain ⟨v, _, hv⟩ := List.mem_map.mp hqp
  have hget : df.get? p.1 = some p.2 := List.mem_enum_iff_get?.mp hpe
  obtain ⟨hlt, hgete⟩ := List.get?_eq_some.mp hget
  refine ⟨hv ▸ hlt, ?_⟩
  have : (df.get ⟨q.1, hv ▸ hlt⟩) = p.2 := by
    subst hv
    exact hgete
  rw [this]
  exact hpm

/-- Gate-null direction: at every position whose gating column
`max_RGC_MTR_MTR` is null, no variant of any of the five designated stacked
columns carries a non-null `cross_norm_perc` after cross-normalization,
whatever scores the variant itself has. -/
theorem c5_mtr_gating_excludes_all_scores (df : List PercRow) (i : Nat)
    (hi : i < df.length) (hmtr : (df.get ⟨i, hi⟩).mtr = none) (c : StackedCol)
    (v : StackedVariantX)
    (hv : v ∈ ((add_cross_norm_percentiles df).get
      ⟨i, (add_cross_norm_percentiles_length df).symm ▸ hi⟩).stacked c) :
    v.cross_norm_perc = none := by
  have hrow : ((add_cross_norm_percentiles df).get
      ⟨i, (add_cross_norm_percentiles_length df).symm ▸ hi⟩).stacked c
      = ((df.get ⟨i, hi⟩).stacked c).map (fun w =>
        { alt := w.alt
          score := w.score
          percentile := w.percentile
          cross_norm_perc :=
            if (joinedEntries df).contains (i, w.alt) then
              (scoreAt df c (i, w.alt)).map (fun s => crossNormPercOf df c s)
            else none }) := by
    unfold add_cross_norm_percentiles
    simp [List.get_eq_getElem, List.getElem_map, List.getElem_enum]
  rw [hrow] at hv
  obtain ⟨w, _, hw⟩ := List.mem_map.mp hv
  have hnotin : ¬ (joinedEntries df).contains (i, w.alt) = true := by
    intro hcont
    obtain ⟨hlt, hsome⟩ := joined_mem_mtr_isSome df (i, w.alt)
      (List.mem_of_elem_eq_true hcont)
    rw [hmtr] at hsome
    exact Bool.noConfusion hsome
  rw [← hw]
  simp only [if_neg hnotin]

/-- One row of the C5 witness table: gating value `m`, one fully scored
variant with allele A in every designated column. -/
def c5Row (m : Option ℚ) : PercRow :=
  { mtr := m
    stacked := fun _ => [{ alt := "A", score := some 1, percentile := some 100 }] }

/-- The C5 witness table: row 0 fails the gate, row 1 passes it. -/
def c5df : List PercRow :=
  [c5Row none, c5Row (some 1)]

/-- Instance of the gate-null direction: in `c5df` the fully scored variant at the gate-failing
row 0 comes out of cross-normalization with a null `cross_norm_perc`. -/
theorem c5_mtr_gating_excludes_all_scores_witness :
    (c5df.get ⟨0, by decide⟩).mtr = none
    ∧ ({ alt := "A"
         score := some 1
         percentile := some 100
         cross_norm_perc := none } : StackedVariantX).cross_norm_perc = none :=
  ⟨rfl, c5_mtr_gating_excludes_all_scores c5df 0 (by decide) rfl
    StackedCol.constraintCol
    { alt := "A", score := some 1, percentile := some 100, cross_norm_perc := none }
    (by decide)⟩

/-- Membership in one MTR-gated exploded column pins down the row: it is in
bounds, its gating value is non-null, and it holds a variant struct with
that allele in that column. -/
theorem exploded_mem_spec (df : List PercRow) (q : Nat × String) (c : StackedCol)
    (hq : q ∈ explodedEntries df c) :
    ∃ h : q.1 < df.length, ((df.get ⟨q.1, h⟩).mtr).isSome = true
      ∧ ∃ w ∈ (df.get ⟨q.1, h⟩).stacked c, w.alt = q.2 := by
  unfold explodedEntries at hq
  obtain ⟨p, hp, hqp⟩ := List.mem_flatMap.mp hq
  obtain ⟨hpe, hpm⟩ := List.mem_filter.mp hp
  obtain ⟨v, hvm, hv⟩ := List.mem_map.mp hqp
  subst hv
  have hget : df.get? p.1 = some p.2 := List.mem_enum_iff_get?.mp hpe
  obtain ⟨hlt, hgete⟩ := List.get?_eq_some.mp hget
  refine ⟨hlt, ?_, v, ?_, rfl⟩
  · rw [show df.get ⟨p.1, hlt⟩ = p.2 from hgete]
    exact hpm
  · rw [show df.get ⟨p.1, hlt⟩ = p.2 from hgete]
    exact hvm

/-- A joined `(row_idx, alt)` pair is present in all five exploded columns. -/
theorem joined_mem_all_cols (df : List PercRow) (q : Nat × String)
    (hq : q ∈ joinedEntries df) : ∀ c : StackedCol, q ∈ explodedEntries df c := by
  obtain ⟨h1, hflags⟩ := List.mem_filter.mp hq
  simp only [Bool.and_eq_true] at hflags
  obtain ⟨⟨⟨hcore, hcomp⟩, halpha⟩, hesm⟩ := hflags
  intro c
  cases c with
  | constraintCol => exact h1
  | coreCol => exact List.mem_of_elem_eq_true hcore
  | completeCol => exact List.mem_of_elem_eq_true hcomp
  | alphaMissenseCol => exact List.mem_of_elem_eq_true halpha
  | esm1bCol => exact List.mem_of_elem_eq_true hesm

/-- The C5 counterexample table: one MTR-gated row whose only variant (allele
A) sits as a struct in all five designated arrays but has a null score in
the ESM1b column — so not all designated score fields are defined for it. -/
def c5df2 : List PercRow :=
  [{ mtr := some 1
     stacked := fun c =>
       [{ alt := "A"
          score := if c = StackedCol.esm1bCol then none else some 1
          percentile := none }] }]

/-- C5 counterexample: the allele-A pair of `c5df2` does not have all five
designated score fields defined (its ESM1b score is null), yet after
cross-normalization it carries a non-null `cross_norm_perc` in the
Constraint column — the five-way inner join keys on `(row_idx, alt)` only
and never checks the score values, refuting the claim's "only pairs having
all designated score fields defined receive cross-normalized percentiles". -/
theorem c5_counterexample :
    (∃ w ∈ (c5df2.get ⟨0, by decide⟩).stacked StackedCol.esm1bCol, w.score = none)
    ∧ ∀ v ∈ ((add_cross_norm_percentiles c5df2).get
        ⟨0, (add_cross_norm_percentiles_length c5df2).symm ▸ (by decide)⟩).stacked
        StackedCol.constraintCol, v.cross_norm_perc.isSome = true := by
  refine ⟨?_, by decide⟩
  refine ⟨_, List.mem_cons_self _ _, ?_⟩
  decide

/-- C5 amended: a variant receives a non-null `cross_norm_perc` in some
designated column only if its position's gating column `max_RGC_MTR_MTR` is
non-null and its allele is present as a variant struct in all five
designated stacked arrays at that position; presence does not require the
score fields themselves to be non-null, so a pair with a null score in one
column still receives cross-normalized percentiles for the columns where it
has a score.  In particular (contrapositive) a gate-failing position
receives no non-null `cross_norm_perc` in any designated column. -/
theorem c5_amended_only_gated_joined_pairs (df : List PercRow) (i : Nat)
    (hi : i < df.length) (c : StackedCol) (v : StackedVariantX)
    (hv : v ∈ ((add_cross_norm_percentiles df).get
      ⟨i, (add_cross_norm_percentiles_length df).symm ▸ hi⟩).stacked c)
    (hsome : v.cross_norm_perc.isSome = true) :
    ((df.get ⟨i, hi⟩).mtr).isSome = true
    ∧ ∀ c2 : StackedCol, ∃ w ∈ (df.get ⟨i, hi⟩).stacked c2, w.alt = v.alt := by
  have hrow : ((add_cross_norm_percentiles df).get
      ⟨i, (add_cross_norm_percentiles_length df).symm ▸ hi⟩).stacked c
      = ((df.get ⟨i, hi⟩).stacked c).map (fun w =>
        { alt := w.alt
          score := w.score
          percentile := w.percentile
          cross_norm_perc :=
            if (joinedEntries df).contains (i, w.alt) then
              (scoreAt df c (i, w.alt)).map (fun s => crossNormPercOf df c s)
            else none }) := by
    unfold add_cross_norm_percentiles
    simp [List.get_eq_getElem, List.getElem_map, List.getElem_enum]
  rw [hrow] at hv
  obtain ⟨w, hwmem, hw⟩ := List.mem_map.mp hv
  have hvalt : v.alt = w.alt := by rw [← hw]
  have hcont : (joinedEntries df).contains (i, w.alt) = true := by
    by_contra hnc
    have hnone : v.cross_norm_perc = none := by
      rw [← hw]
      exact if_neg hnc
    rw [hnone] at hsome
    exact Bool.noConfusion hsome
  have hj : (i, w.alt) ∈ joinedEntries df := List.mem_of_elem_eq_true hcont
  constructor
  · obtain ⟨h, hm, _⟩ := exploded_mem_spec df (i, w.alt) StackedCol.constraintCol
      (joined_mem_all_cols df (i, w.alt) hj StackedCol.constraintCol)
    exact hm
  · intro c2
    obtain ⟨h, _, w2, hw2mem, hw2alt⟩ := exploded_mem_spec df (i, w.alt) c2
      (joined_mem_all_cols df (i, w.alt) hj c2)
    refine ⟨w2, hw2mem, ?_⟩
    rw [hw2alt, hvalt]

/-- Witness for C5 amended: in `c5df` the first output variant of the gated
row 1's Constraint column has a non-null `cross_norm_perc`, and the theorem
yields its gate and its presence in all five arrays. -/
theorem c5_amended_only_gated_joined_pairs_witness :
    ((c5df.get ⟨1, by decide⟩).mtr).isSome = true
    ∧ ∀ c2 : StackedCol, ∃ w ∈ (c5df.get ⟨1, by decide⟩).stacked c2,
        w.alt = ((((add_cross_norm_percentiles c5df).get
          ⟨1, (add_cross_norm_percentiles_length c5df).symm ▸ (by decide)⟩).stacked
          StackedCol.constraintCol).get ⟨0, by decide⟩).alt :=
  c5_amended_only_gated_joined_pairs c5df 1 (by decide) StackedCol.constraintCol
    ((((add_cross_norm_percentiles c5df).get
      ⟨1, (add_cross_norm_percentiles_length c5df).symm ▸ (by decide)⟩).stacked
      StackedCol.constraintCol).get ⟨0, by decide⟩)
    (List.get_mem _ 0 (by decide)) (by decide)

/-! ## Embedding of browser/backend/coordinate_mapper.py -/

/-- Python `str.upper()` on one ASCII code point (gene symbols are ASCII;
strings are modelled as lists of code points). -/
def pyUpperCode (n : Nat) : Nat :=
  if 97 ≤ n ∧ n ≤ 122 then n - 32 else n

/-- Python `str.upper()` on a gene symbol. -/
def pyUpper (s : List Nat) : List Nat :=
  s.map pyUpperCode

theorem pyUpperCode_idem (n : Nat) : pyUpperCode (pyUpperCode n) = pyUpperCode n := by
  unfold pyUpperCode
  by_cases h : 97 ≤ n ∧ n ≤ 122
  · rw [if_pos h, if_neg (by omega)]
  · rw [if_neg h, if_neg h]

theorem pyUpper_idem (s : List Nat) : pyUpper (pyUpper s) = pyUpper s := by
  unfold pyUpper
  rw [List.map_map]
  exact List.map_congr_left (fun n _ => pyUpperCode_idem n)

/-- One row of a loaded `<gene>_protein_map` table. -/
structure PMRow where
  chrom : String
  pos : Nat
  cds_offset : Nat
  codon_position : Nat
  protein_residue : Nat
  ref_aa : Char
deriving Repr, DecidableEq

/-- A structure-metadata document; keyed at load time by its own uppercased
`gene_symbol`.  Only the fields the claims touch are modelled. -/
structure StructMeta where
  gene_symbol : List Nat
  protein_length : Nat
deriving Repr, DecidableEq

/-- The `CoordinateMapper` state: the two dicts filled at startup, keyed by
uppercased gene symbol.  Python dicts are modelled as association lists with
first-match lookup. -/
structure Mapper where
  protein_maps : List (List Nat × List PMRow)
  structure_metadata : List (List Nat × StructMeta)

/-- The record `genomic_to_protein` returns. -/
structure G2PResult where
  protein_residue : Nat
  codon_position : Nat
  ref_aa : Char
  cds_offset : Nat
deriving Repr, DecidableEq

/-- One entry of the `protein_to_genomic` result list. -/
structure P2GEntry where
  chrom : String
  pos : Nat
  codon_position : Nat
  ref_aa : Char
deriving Repr, DecidableEq

/-- Embedding of `CoordinateMapper.genomic_to_protein`: uppercase the gene,
look the map up, filter by `(chrom, pos)` and take the first matching row. -/
def Mapper.genomic_to_protein (m : Mapper) (gene : List Nat) (chrom : String)
    (pos : Nat) : Option G2PResult :=
  match List.lookup (pyUpper gene) m.protein_maps with
  | none => none
  | some protein_map =>
    match protein_map.filter (fun r => r.chrom == chrom && r.pos == pos) with
    | [] => none
    | row :: _ =>
      some { protein_residue := row.protein_residue
             codon_position := row.codon_position
             ref_aa := row.ref_aa
             cds_offset := row.cds_offset }

/-- Embedding of `CoordinateMapper.protein_to_genomic`: all rows of the
uppercase-keyed map with the requested residue, in table order. -/
def Mapper.protein_to_genomic (m : Mapper) (gene : List Nat) (residue : Nat) :
    List P2GEntry :=
  match List.lookup (pyUpper gene) m.protein_maps with
  | none => []
  | some protein_map =>
    (protein_map.filter (fun r => r.protein_residue == residue)).map
      (fun r => { chrom := r.chrom
                  pos := r.pos
                  codon_position := r.codon_position
                  ref_aa := r.ref_aa })

/-- Row order used by `get_protein_range`: `(protein_residue, codon_position)`
lexicographically. -/
def pmRowLe (a b : PMRow) : Prop :=
  keyLeP (a.protein_residue, a.codon_position) (b.protein_residue, b.codon_position)

instance : DecidableRel pmRowLe := fun a b => by
  unfold pmRowLe
  exact inferInstance

/-- Embedding of `CoordinateMapper.get_protein_range`: rows with residue in
`[start_residue, end_residue]`, sorted by `(protein_residue, codon_position)`. -/
def Mapper.get_protein_range (m : Mapper) (gene : List Nat)
    (start_residue end_residue : Nat) : List PMRow :=
  match List.lookup (pyUpper gene) m.protein_maps with
  | none => []
  | some protein_map =>
    (protein_map.filter (fun r =>
      decide (start_residue ≤ r.protein_residue)
        && decide (r.protein_residue ≤ end_residue))).insertionSort pmRowLe

/-- Embedding of `CoordinateMapper.get_structure_metadata`. -/
def Mapper.get_structure_metadata (m : Mapper) (gene : List Nat) : Option StructMeta :=
  List.lookup (pyUpper gene) m.structure_metadata

/-- Embedding of `CoordinateMapper.has_gene`. -/
def Mapper.has_gene (m : Mapper) (gene : List Nat) : Bool :=
  (List.lookup (pyUpper gene) m.protein_maps).isSome

/-- C3: for a gene with a loaded protein map whose `(chrom, pos)` pairs are
unique, mapping a residue to its genomic positions and mapping any returned
position back yields the original residue together with that entry's own
codon position. -/
theorem c3_protein_genomic_round_trip (m : Mapper) (gene : List Nat) (residue : Nat)
    (pm : List PMRow) (hpm : List.lookup (pyUpper gene) m.protein_maps = some pm)
    (huniq : pm.Pairwise (fun a b => (a.chrom, a.pos) ≠ (b.chrom, b.pos)))
    (e : P2GEntry) (he : e ∈ m.protein_to_genomic gene residue) :
    ∃ res : G2PResult, m.genomic_to_protein gene e.chrom e.pos = some res
      ∧ res.protein_residue = residue ∧ res.codon_position = e.codon_position := by
  unfold Mapper.protein_to_genomic at he
  rw [hpm] at he
  obtain ⟨r, hrf, hre⟩ := List.mem_map.mp he
  obtain ⟨hrpm, hrres⟩ := List.mem_filter.mp hrf
  have hres : r.protein_residue = residue := by simpa using hrres
  have hec : e.chrom = r.chrom := by rw [← hre]
  have hep : e.pos = r.pos := by rw [← hre]
  have hecod : e.codon_position = r.codon_position := by rw [← hre]
  have hrmatch : r ∈ pm.filter (fun q => q.chrom == e.chrom && q.pos == e.pos) :=
    List.mem_filter.mpr ⟨hrpm, by simp [hec, hep]⟩
  cases hl : pm.filter (fun q => q.chrom == e.chrom && q.pos == e.pos) with
  | nil =>
    rw [hl] at hrmatch
    exact absurd hrmatch (List.not_mem_nil r)
  | cons row rest =>
    have hrowf : row ∈ pm.filter (fun q => q.chrom == e.chrom && q.pos == e.pos) := by
      rw [hl]
      exact List.mem_cons_self row rest
    obtain ⟨hrowpm, hrowpred⟩ := List.mem_filter.mp hrowf
    have hrowc : row.chrom = e.chrom := by
      have := (Bool.and_eq_true _ _ |>.mp hrowpred).1
      simpa using this
    have hrowp : row.pos = e.pos := by
      have := (Bool.and_eq_true _ _ |>.mp hrowpred).2
      simpa using this
    have hsym : Symmetric (fun (a b : PMRow) => (a.chrom, a.pos) ≠ (b.chrom, b.pos)) :=
      fun x y h he2 => h he2.symm
    have hrowr : row = r := by
      by_contra hne
      exact (huniq.forall hsym hrowpm hrpm hne) (by rw [hrowc, hrowp, hec, hep])
    refine ⟨{ protein_residue := row.protein_residue
              codon_position := row.codon_position
              ref_aa := row.ref_aa
              cds_offset := row.cds_offset }, ?_, ?_, ?_⟩
    · unfold Mapper.genomic_to_protein
      rw [hpm]
      show (match pm.filter (fun q2 => q2.chrom == e.chrom && q2.pos == e.pos) with
        | [] => none
        | row2 :: _ =>
          some ({ protein_residue := row2.protein_residue
                  codon_position := row2.codon_position
                  ref_aa := row2.ref_aa
                  cds_offset := row2.cds_offset } : G2PResult)) = _
      rw [hl]
    · rw [hrowr, hres]
    · rw [hrowr, hecod]

/-- The protein map of the C3 witness: one residue, three codon positions at
distinct genomic positions. -/
def c3pm : List PMRow :=
  [{ chrom := "chr2", pos := 100, cds_offset := 0, codon_position := 1,
     protein_residue := 1, ref_aa := 'M' },
   { chrom := "chr2", pos := 101, cds_offset := 1, codon_position := 2,
     protein_residue := 1, ref_aa := 'M' },
   { chrom := "chr2", pos := 102, cds_offset := 2, codon_position := 3,
     protein_residue := 1, ref_aa := 'M' }]

/-- The C3 witness mapper, keyed by the uppercased gene symbol "SC". -/
def c3mapper : Mapper :=
  { protein_maps := [([83, 67], c3pm)]
    structure_metadata := [] }

/-- Witness for C3 at the lower-case query "sc" and the second codon
position of residue 1. -/
theorem c3_protein_genomic_round_trip_witness :
    ∃ res : G2PResult,
      c3mapper.genomic_to_protein [115, 99] "chr2" 101 = some res
      ∧ res.protein_residue = 1 ∧ res.codon_position = 2 :=
  c3_protein_genomic_round_trip c3mapper [115, 99] 1 c3pm (by decide) (by decide)
    { chrom := "chr2", pos := 101, codon_position := 2, ref_aa := 'M' } (by decide)

/-- C10: every `CoordinateMapper` lookup is case-insensitive — the five
operations return the same result for a gene symbol and for its uppercased
form, because the tables are keyed by uppercased symbol and every lookup
uppercases its argument (and `upper` is idempotent). -/
theorem c10_gene_lookup_case_insensitive (m : Mapper) (gene : List Nat)
    (chrom : String) (pos residue a b : Nat) :
    m.genomic_to_protein gene chrom pos = m.genomic_to_protein (pyUpper gene) chrom pos
    ∧ m.protein_to_genomic gene residue = m.protein_to_genomic (pyUpper gene) residue
    ∧ m.get_protein_range gene a b = m.get_protein_range (pyUpper gene) a b
    ∧ m.get_structure_metadata gene = m.get_structure_metadata (pyUpper gene)
    ∧ m.has_gene gene = m.has_gene (pyUpper gene) := by
  have hkey : pyUpper (pyUpper gene) = pyUpper gene := pyUpper_idem gene
  unfold Mapper.genomic_to_protein Mapper.protein_to_genomic Mapper.get_protein_range
    Mapper.get_structure_metadata Mapper.has_gene
  rw [hkey]
  exact ⟨rfl, rfl, rfl, rfl, rfl⟩

/-! ## Embedding of browser/backend/app.py -/

/-- One axis-table row as the filtered-window endpoint touches it. -/
structure AxisRow where
  filtered_idx : Nat
  chrom : String
  pos : Nat
deriving Repr, DecidableEq

/-- One entry of the response's `real_coordinate_ranges`. -/
structure RealRange where
  chrom : String
  range_start : Nat
  range_stop : Nat
deriving Repr, DecidableEq

/-- The `WindowResponse` fields the claim speaks about. -/
structure WindowResult where
  filtered_start : Int
  filtered_end : Int
  positions : List AxisRow
  real_coordinate_ranges : List RealRange
deriving Repr, DecidableEq

/-- Embedding of the body of `get_filtered_window` (the `ge=0` declaration on
the route parameter belongs to the excluded HTTP layer): clamp `start` into
`[0, max_idx]`, clamp `end` into `[start, max_idx]`, keep the rows with
`filtered_idx` in the clamped window, and attach the min/max genomic `pos`
when the window is non-empty (`CHROMOSOME = 'all'`). -/
def get_filtered_window (axis_table : List AxisRow) (start0 end0 : Int) : WindowResult :=
  let max_idx : Int := (axis_table.length : Int) - 1
  let s := max 0 (min start0 max_idx)
  let e := max s (min end0 max_idx)
  let window := axis_table.filter (fun r =>
    decide (s ≤ (r.filtered_idx : Int)) && decide ((r.filtered_idx : Int) ≤ e))
  { filtered_start := s
    filtered_end := e
    positions := window
    real_coordinate_ranges :=
      if window.length > 0 then
        [{ chrom := "all"
           range_start := ((window.map AxisRow.pos).min?).getD 0
           range_stop := ((window.map AxisRow.pos).max?).getD 0 }]
      else [] }

/-- Over a block of rows carrying the dense indices `base, base+1, …`, the
window filter keeps exactly the indices inside `[s, e]`. -/
theorem dense_filter_length (l : List AxisRow) (s e : Int) :
    ∀ base : Nat,
      (∀ i, ∀ hi : i < l.length, (l.get ⟨i, hi⟩).filtered_idx = base + i) →
      ((l.filter (fun r =>
        decide (s ≤ (r.filtered_idx : Int)) && decide ((r.filtered_idx : Int) ≤ e))).length : Int)
        = max 0 (min e ((base : Int) + l.length - 1) - max s (base : Int) + 1) := by
  induction l with
  | nil =>
    intro base _
    simp only [List.filter_nil, List.length_nil, Nat.cast_zero]
    omega
  | cons a t ih =>
    intro base hd
    have ha : a.filtered_idx = base := by
      have := hd 0 (by simp)
      simpa using this
    have hdt : ∀ i, ∀ hi : i < t.length, (t.get ⟨i, hi⟩).filtered_idx = (base + 1) + i := by
      intro i hi
      have := hd (i + 1) (by simp; omega)
      simp only [List.get_eq_getElem, List.getElem_cons_succ] at this
      simp only [List.get_eq_getElem]
      omega
    have hstep := ih (base + 1) hdt
    rw [List.filter_cons]
    by_cases hp : s ≤ (base : Int) ∧ (base : Int) ≤ e
    · rw [ha, if_pos (by simp [hp.1, hp.2])]
      simp only [List.length_cons]
      push_cast at hstep ⊢
      omega
    · rw [ha, if_neg (by
        intro hcon
        simp only [Bool.and_eq_true, decide_eq_true_eq] at hcon
        exact hp hcon)]
      simp only [List.length_cons]
      push_cast at hstep ⊢
      omega

/-- C6: on a non-empty axis table with the dense `filtered_idx = row index`
invariant, the window endpoint clamps `start` into `[0, max_idx]` and `end`
into `[start, max_idx]`, returns exactly the rows with `filtered_idx` in the
clamped window — a contiguous block of `end - start + 1` rows — and reports
the min and max genomic `pos` of the window as its single real-coordinate
range, with no range entry when the window is empty. -/
theorem c6_window_clamps_and_returns_contiguous_block (axis_table : List AxisRow)
    (start0 end0 : Int) (hne : axis_table ≠ [])
    (hdense : ∀ i, ∀ hi : i < axis_table.length, (axis_table.get ⟨i, hi⟩).filtered_idx = i) :
    0 ≤ (get_filtered_window axis_table start0 end0).filtered_start
    ∧ (get_filtered_window axis_table start0 end0).filtered_start
      ≤ (axis_table.length : Int) - 1
    ∧ (get_filtered_window axis_table start0 end0).filtered_start
      ≤ (get_filtered_window axis_table start0 end0).filtered_end
    ∧ (get_filtered_window axis_table start0 end0).filtered_end
      ≤ (axis_table.length : Int) - 1
    ∧ (∀ r : AxisRow, r ∈ (get_filtered_window axis_table start0 end0).positions
        ↔ r ∈ axis_table
          ∧ (get_filtered_window axis_table start0 end0).filtered_start
            ≤ (r.filtered_idx : Int)
          ∧ (r.filtered_idx : Int)
            ≤ (get_filtered_window axis_table start0 end0).filtered_end)
    ∧ (((get_filtered_window axis_table start0 end0).positions.length : Int)
        = (get_filtered_window axis_table start0 end0).filtered_end
          - (get_filtered_window axis_table start0 end0).filtered_start + 1)
    ∧ ((get_filtered_window axis_table start0 end0).positions = []
        → (get_filtered_window axis_table start0 end0).real_coordinate_ranges = [])
    ∧ ((get_filtered_window axis_table start0 end0).positions ≠ []
        → ∃ rr : RealRange,
          (get_filtered_window axis_table start0 end0).real_coordinate_ranges = [rr]
          ∧ (∃ p ∈ (get_filtered_window axis_table start0 end0).positions,
              p.pos = rr.range_start)
          ∧ (∀ p ∈ (get_filtered_window axis_table start0 end0).positions,
              rr.range_start ≤ p.pos)
          ∧ (∃ p ∈ (get_filtered_window axis_table start0 end0).positions,
              p.pos = rr.range_stop)
          ∧ (∀ p ∈ (get_filtered_window axis_table start0 end0).positions,
              p.pos ≤ rr.range_stop)) := by
  have hn : 1 ≤ axis_table.length := List.length_pos.mpr hne
  have hnQ : (1 : Int) ≤ (axis_table.length : Int) := by exact_mod_cast hn
  have hs : (get_filtered_window axis_table start0 end0).filtered_start
      = max 0 (min start0 ((axis_table.length : Int) - 1)) := rfl
  have he : (get_filtered_window axis_table start0 end0).filtered_end
      = max (max 0 (min start0 ((axis_table.length : Int) - 1)))
          (min end0 ((axis_table.length : Int) - 1)) := rfl
  have hpos : (get_filtered_window axis_table start0 end0).positions
      = axis_table.filter (fun r =>
        decide ((get_filtered_window axis_table start0 end0).filtered_start
          ≤ (r.filtered_idx : Int))
        && decide ((r.filtered_idx : Int)
          ≤ (get_filtered_window axis_table start0 end0).filtered_end)) := rfl
  refine ⟨by rw [hs]; omega, by rw [hs]; omega, by rw [hs, he]; omega,
    by rw [he]; omega, ?_, ?_, ?_, ?_⟩
  · intro r
    rw [hpos, List.mem_filter]
    simp only [Bool.and_eq_true, decide_eq_true_eq]
  · rw [hpos]
    have hb : ∀ i, ∀ hi : i < axis_table.length,
        (axis_table.get ⟨i, hi⟩).filtered_idx = 0 + i := by
      intro i hi
      rw [hdense i hi]
      omega
    rw [dense_filter_length axis_table _ _ 0 hb]
    rw [hs, he]
    push_cast
    omega
  · intro hempty
    have hr : (get_filtered_window axis_table start0 end0).real_coordinate_ranges
        = if 0 < (get_filtered_window axis_table start0 end0).positions.length then
            [{ chrom := "all"
               range_start :=
                 (((get_filtered_window axis_table start0 end0).positions.map
                   AxisRow.pos).min?).getD 0
               range_stop :=
                 (((get_filtered_window axis_table start0 end0).positions.map
                   AxisRow.pos).max?).getD 0 }]
          else [] := rfl
    rw [hr, hempty]
    simp
  · intro hnonempty
    have hlen : 0 < (get_filtered_window axis_table start0 end0).positions.length :=
      List.length_pos.mpr hnonempty
    have hr : (get_filtered_window axis_table start0 end0).real_coordinate_ranges
        = if 0 < (get_filtered_window axis_table start0 end0).positions.length then
            [{ chrom := "all"
               range_start :=
                 (((get_filtered_window axis_table start0 end0).positions.map
                   AxisRow.pos).min?).getD 0
               range_stop :=
                 (((get_filtered_window axis_table start0 end0).positions.map
                   AxisRow.pos).max?).getD 0 }]
          else [] := rfl
    have hmapne : (get_filtered_window axis_table start0 end0).positions.map AxisRow.pos
        ≠ [] := by
      intro hcon
      exact hnonempty (List.map_eq_nil_iff.mp hcon)
    cases hmin : ((get_filtered_window axis_table start0 end0).positions.map
        AxisRow.pos).min? with
    | none => exact absurd (List.min?_eq_none_iff.mp hmin) hmapne
    | some mn =>
      cases hmax : ((get_filtered_window axis_table start0 end0).positions.map
          AxisRow.pos).max? with
      | none => exact absurd (List.max?_eq_none_iff.mp hmax) hmapne
      | some mx =>
        have hminp := (List.min?_eq_some_iff (fun a => Nat.le_refl a)
          (fun a b => min_choice a b) (fun a b c => le_min_iff)).mp hmin
        have hmaxp := (List.max?_eq_some_iff (fun a => Nat.le_refl a)
          (fun a b => max_choice a b) (fun a b c => max_le_iff)).mp hmax
        refine ⟨{ chrom := "all", range_start := mn, range_stop := mx }, ?_, ?_, ?_, ?_, ?_⟩
        · rw [hr, if_pos hlen, hmin, hmax]
          rfl
        · obtain ⟨p, hp, hpe⟩ := List.mem_map.mp hminp.1
          exact ⟨p, hp, hpe⟩
        · intro p hp
          exact hminp.2 p.pos (List.mem_map.mpr ⟨p, hp, rfl⟩)
        · obtain ⟨p, hp, hpe⟩ := List.mem_map.mp hmaxp.1
          exact ⟨p, hp, hpe⟩
        · intro p hp
          exact hmaxp.2 p.pos (List.mem_map.mpr ⟨p, hp, rfl⟩)

/-- A ten-row dense axis table for the C6 scenario. -/
def c6table : List AxisRow :=
  (List.range 10).map (fun i => { filtered_idx := i, chrom := "chr1", pos := 100 + i })

/-- Witness for C6, spec Scenario B: the window `(-5, 1)` on the ten-row
table clamps to `[0, 1]` and returns 2 rows. -/
theorem c6_window_clamps_witness :
    ((get_filtered_window c6table (-5) 1).positions.length : Int)
      = (get_filtered_window c6table (-5) 1).filtered_end
        - (get_filtered_window c6table (-5) 1).filtered_start + 1
    ∧ (get_filtered_window c6table (-5) 1).filtered_start = 0
    ∧ (get_filtered_window c6table (-5) 1).filtered_end = 1
    ∧ (get_filtered_window c6table (-5) 1).positions.length = 2 := by
  have h := c6_window_clamps_and_returns_contiguous_block c6table (-5) 1
    (by decide) (by decide)
  exact ⟨h.2.2.2.2.2.1, by decide, by decide, by decide⟩

/-- A Python numeric cell value as the aggregation loop distinguishes it:
`None`, float NaN (`value != value`), or an ordinary number. -/
inductive PyNum
  | null
  | nan
  | num (q : ℚ)
deriving Repr, DecidableEq

/-- One variant dict of a constraint stacked array; `pred` is the `_1`
field (`None` for a missing or null pred). -/
structure CVariant where
  alt : String
  pred : PyNum
deriving Repr, DecidableEq

/-- The requested field's cell in one axis row: a scalar column value or a
stacked variant array. -/
inductive FieldCell
  | scalarCell (v : PyNum)
  | stackedCell (vs : List CVariant)
deriving Repr, DecidableEq

/-- One gene row of the axis table as `pos_to_data` holds it; `cell = none`
models the field key being absent from the row dict. -/
structure GeneRow where
  chrom : String
  pos : Nat
  cell : Option FieldCell
deriving Repr, DecidableEq

/-- One entry of the `get_protein_range` output as the loop reads it. -/
structure RangePos where
  protein_residue : Nat
  chrom : String
  pos : Nat
deriving Repr, DecidableEq

/-- The `pos_to_data` dict: built by one pass over the gene rows with later
rows overwriting earlier ones at the same `(chrom, pos)` key, so lookup
returns the last matching row. -/
def posLookup (rows : List GeneRow) (chrom : String) (pos : Nat) : Option GeneRow :=
  rows.reverse.find? (fun r => r.chrom == chrom && r.pos == pos)

/-- The values one cell contributes, or the `TypeError` the contribution
raises.  `is_stacked` is `field in CONSTRAINT_STACKED_FIELDS`
({Constraint, Core, Complete}).  For a constraint stacked field every
variant's non-null, non-NaN `_1` pred is collected; a scalar-shaped cell
under a stacked field contributes nothing (`isinstance(value, list)` fails).
For any other field a scalar value is collected unless it is `None` (the
loop continues) or NaN — but a variant-array cell reaches `float(value)` on
a list and raises `TypeError` (app.py line 712), which happens for every
variant-array field outside `CONSTRAINT_STACKED_FIELDS`, such as
`ESM1b_stacked` or `AlphaMissense_stacked`. -/
def cellValuesE (is_stacked : Bool) (cell : FieldCell) : Except Unit (List ℚ) :=
  match is_stacked, cell with
  | true, .stackedCell vs =>
    .ok (vs.filterMap (fun v =>
      match v.pred with
      | .num q => some q
      | .null => none
      | .nan => none))
  | true, .scalarCell _ => .ok []
  | false, .scalarCell v =>
    .ok (match v with
      | .num q => [q]
      | .null => []
      | .nan => [])
  | false, .stackedCell _ => .error ()

/-- All values contributed to one residue: the loop walks the protein-range
positions of that residue in order and collects each position's cell values,
aborting with the `TypeError` the moment one cell raises it. -/
def collectedValuesE (is_stacked : Bool) (positions : List RangePos)
    (gene_rows : List GeneRow) (r : Nat) : Except Unit (List ℚ) :=
  (positions.filter (fun p => p.protein_residue == r)).foldl
    (fun acc p =>
      match acc with
      | .error e => .error e
      | .ok vs =>
        match posLookup gene_rows p.chrom p.pos with
        | none => .ok vs
        | some row =>
          match row.cell with
          | none => .ok vs
          | some cell =>
            match cellValuesE is_stacked cell with
            | .error e => .error e
            | .ok more => .ok (vs ++ more))
    (.ok [])

/-- Round-half-even on an integer-scaled rational (the semantics of Python
`round` on an exactly represented value). -/
def roundHalfEven (q : ℚ) : Int :=
  let fl := ⌊q⌋
  let fr := q - (fl : ℚ)
  if fr < 1 / 2 then fl
  else if 1 / 2 < fr then fl + 1
  else if fl % 2 = 0 then fl else fl + 1

/-- Python `round(x, 4)` over exactly represented values. -/
def round4 (q : ℚ) : ℚ :=
  (roundHalfEven (q * 10000) : ℚ) / 10000

/-- The reduction step: `max(values)`, `min(values)`, or the arithmetic mean
for every other aggregation name.  The nil case is unreachable — the loop
only aggregates residues that collected at least one value. -/
def reduceValues (aggregation : String) (vs : List ℚ) : ℚ :=
  match vs with
  | [] => 0
  | v :: rest =>
    if aggregation = "max" then rest.foldl max v
    else if aggregation = "min" then rest.foldl min v
    else (v :: rest).sum / ((v :: rest).length : ℚ)

/-- Embedding of the per-residue core of `get_residue_scores`: the score map
entry of one residue — the `TypeError` if collection raised one, else absent
(`none`) exactly when the residue collected no values, otherwise
`round(score, 4)` of the reduction. -/
def get_residue_scores (is_stacked : Bool) (aggregation : String)
    (positions : List RangePos) (gene_rows : List GeneRow) (r : Nat) :
    Except Unit (Option ℚ) :=
  match collectedValuesE is_stacked positions gene_rows r with
  | .error e => .error e
  | .ok [] => .ok none
  | .ok (v :: rest) => .ok (some (round4 (reduceValues aggregation (v :: rest))))

/-- Unfolding equation of `reduceValues` on a non-empty list. -/
theorem reduceValues_cons (aggregation : String) (v : ℚ) (rest : List ℚ) :
    reduceValues aggregation (v :: rest)
      = if aggregation = "max" then rest.foldl max v
        else if aggregation = "min" then rest.foldl min v
        else (v :: rest).sum / ((v :: rest).length : ℚ) := rfl

/-- The left fold of `max` lands on a member of `v :: l`. -/
theorem foldl_max_mem (v : ℚ) (l : List ℚ) : l.foldl max v ∈ v :: l := by
  induction l generalizing v with
  | nil => simp
  | cons a t ih =>
    simp only [List.foldl_cons]
    rcases max_choice v a with h | h
    · rcases List.mem_cons.mp (ih (max v a)) with h2 | h2
      · exact List.mem_cons.mpr (Or.inl (h2.trans h))
      · exact List.mem_cons.mpr (Or.inr (List.mem_cons.mpr (Or.inr h2)))
    · rcases List.mem_cons.mp (ih (max v a)) with h2 | h2
      · exact List.mem_cons.mpr (Or.inr (List.mem_cons.mpr (Or.inl (h2.trans h))))
      · exact List.mem_cons.mpr (Or.inr (List.mem_cons.mpr (Or.inr h2)))

/-- The left fold of `max` bounds every element of `v :: l` from above. -/
theorem le_foldl_max (v : ℚ) (l : List ℚ) : ∀ x ∈ v :: l, x ≤ l.foldl max v := by
  induction l generalizing v with
  | nil =>
    intro x hx
    rw [List.mem_singleton.mp hx]
    exact le_refl _
  | cons a t ih =>
    intro x hx
    simp only [List.foldl_cons]
    rcases List.mem_cons.mp hx with h | h
    · calc x = v := h
        _ ≤ max v a := le_max_left v a
        _ ≤ t.foldl max (max v a) := ih (max v a) (max v a) (List.mem_cons_self _ _)
    · rcases List.mem_cons.mp h with h2 | h2
      · calc x = a := h2
          _ ≤ max v a := le_max_right v a
          _ ≤ t.foldl max (max v a) := ih (max v a) (max v a) (List.mem_cons_self _ _)
      · exact ih (max v a) x (List.mem_cons.mpr (Or.inr h2))

/-- The left fold of `min` lands on a member of `v :: l`. -/
theorem foldl_min_mem (v : ℚ) (l : List ℚ) : l.foldl min v ∈ v :: l := by
  induction l generalizing v with
  | nil => simp
  | cons a t ih =>
    simp only [List.foldl_cons]
    rcases min_choice v a with h | h
    · rcases List.mem_cons.mp (ih (min v a)) with h2 | h2
      · exact List.mem_cons.mpr (Or.inl (h2.trans h))
      · exact List.mem_cons.mpr (Or.inr (List.mem_cons.mpr (Or.inr h2)))
    · rcases List.mem_cons.mp (ih (min v a)) with h2 | h2
      · exact List.mem_cons.mpr (Or.inr (List.mem_cons.mpr (Or.inl (h2.trans h))))
      · exact List.mem_cons.mpr (Or.inr (List.mem_cons.mpr (Or.inr h2)))

/-- The left fold of `min` bounds every element of `v :: l` from below. -/
theorem foldl_min_le (v : ℚ) (l : List ℚ) : ∀ x ∈ v :: l, l.foldl min v ≤ x := by
  induction l generalizing v with
  | nil =>
    intro x hx
    rw [List.mem_singleton.mp hx]
    exact le_refl _
  | cons a t ih =>
    intro x hx
    simp only [List.foldl_cons]
    rcases List.mem_cons.mp hx with h | h
    · calc t.foldl min (min v a) ≤ min v a :=
          ih (min v a) (min v a) (List.mem_cons_self _ _)
        _ ≤ v := min_le_left v a
        _ = x := h.symm
    · rcases List.mem_cons.mp h with h2 | h2
      · calc t.foldl min (min v a) ≤ min v a :=
            ih (min v a) (min v a) (List.mem_cons_self _ _)
          _ ≤ a := min_le_right v a
          _ = x := h2.symm
      · exact ih (min v a) x (List.mem_cons.mpr (Or.inr h2))

/-- The protein-range positions used by the C7 counterexample: one residue at
one genomic position. -/
def c7badPositions : List RangePos :=
  [{ protein_residue := 7, chrom := "chr2", pos := 100 }]

/-- The gene row used by the C7 counterexample: the requested field's cell is
a variant array, as it is for `ESM1b_stacked` or `AlphaMissense_stacked`. -/
def c7badRows : List GeneRow :=
  [{ chrom := "chr2", pos := 100
     cell := some (.stackedCell [{ alt := "A", pred := .num 1 }]) }]

/-- C7 counterexample: requesting a variant-array field that is not one of
the three `CONSTRAINT_STACKED_FIELDS` (`is_stacked = false` models
`field ∉ {Constraint, Core, Complete}`, e.g. `field = "ESM1b_stacked"`)
makes the aggregation raise `TypeError` at `float(value)` on the list cell
instead of collecting the variants' values — refuting the claim's "for
variant-array fields the values of all variants at the residue's genomic
positions are collected". -/
theorem c7_typeerror_on_nonconstraint_stacked_field :
    get_residue_scores false "max" c7badPositions c7badRows 7 = .error () := rfl

/-- C7 amended: variant-array collection happens only for the three
constraint stacked fields (`field ∈ CONSTRAINT_STACKED_FIELDS`); for them
every variant's non-null, non-NaN pred at the residue's genomic positions is
collected, while requesting any other field whose cells are variant arrays
raises `TypeError` (as the counterexample shows).  Whenever collection
succeeds: a residue is absent from the score map exactly when it collected
no values (nulls and NaNs never being collected), and a residue that
collected values receives `round(score, 4)` where `score` is the maximum of
the collected values under `aggregation = "max"`, their minimum under
`"min"`, and their arithmetic mean under every other aggregation name. -/
theorem c7_amended_residue_aggregation (is_stacked : Bool) (aggregation : String)
    (positions : List RangePos) (gene_rows : List GeneRow) (r : Nat)
    (vs : List ℚ)
    (hvs : collectedValuesE is_stacked positions gene_rows r = .ok vs) :
    (get_residue_scores is_stacked aggregation positions gene_rows r = .ok none
      ↔ vs = [])
    ∧ (vs ≠ [] →
      (aggregation = "max" → ∃ w : ℚ,
        get_residue_scores is_stacked aggregation positions gene_rows r
          = .ok (some (round4 w)) ∧ w ∈ vs ∧ ∀ x ∈ vs, x ≤ w)
      ∧ (aggregation = "min" → ∃ w : ℚ,
        get_residue_scores is_stacked aggregation positions gene_rows r
          = .ok (some (round4 w)) ∧ w ∈ vs ∧ ∀ x ∈ vs, w ≤ x)
      ∧ (aggregation ≠ "max" → aggregation ≠ "min" →
        get_residue_scores is_stacked aggregation positions gene_rows r
          = .ok (some (round4 (vs.sum / (vs.length : ℚ)))))) := by
  constructor
  · unfold get_residue_scores
    rw [hvs]
    cases vs with
    | nil => simp
    | cons v rest => simp
  · intro hne
    cases vs with
    | nil => exact absurd rfl hne
    | cons v rest =>
      have hscore : get_residue_scores is_stacked aggregation positions gene_rows r
          = .ok (some (round4 (reduceValues aggregation (v :: rest)))) := by
        unfold get_residue_scores
        rw [hvs]
      refine ⟨?_, ?_, ?_⟩
      · intro hagg
        refine ⟨rest.foldl max v, ?_, foldl_max_mem v rest, le_foldl_max v rest⟩
        rw [hscore, reduceValues_cons, if_pos hagg]
      · intro hagg
        refine ⟨rest.foldl min v, ?_, foldl_min_mem v rest, foldl_min_le v rest⟩
        rw [hscore, reduceValues_cons]
        have hmax : ¬ aggregation = "max" := by
          rw [hagg]
          decide
        rw [if_neg hmax, if_pos hagg]
      · intro hmax hmin
        rw [hscore, reduceValues_cons, if_neg hmax, if_neg hmin]

/-- The protein-range positions of the C7 witness: residue 7 spans three
genomic positions. -/
def c7positions : List RangePos :=
  [{ protein_residue := 7, chrom := "chr2", pos := 100 },
   { protein_residue := 7, chrom := "chr2", pos := 101 },
   { protein_residue := 7, chrom := "chr2", pos := 102 }]

/-- The gene rows of the C7 witness: a constraint stacked field whose
variants carry the preds 0.1, 0.9 and NaN across the three positions. -/
def c7rows : List GeneRow :=
  [{ chrom := "chr2", pos := 100
     cell := some (.stackedCell [{ alt := "A", pred := .num (1 / 10) }]) },
   { chrom := "chr2", pos := 101
     cell := some (.stackedCell [{ alt := "C", pred := .num (9 / 10) }]) },
   { chrom := "chr2", pos := 102
     cell := some (.stackedCell [{ alt := "G", pred := .nan }]) }]

/-- Witness for C7 amended, spec Scenario D on a constraint stacked field:
aggregating the variant preds `[0.1, 0.9, NaN]` at residue 7's three
positions with `"max"` excludes the NaN and yields 0.9. -/
theorem c7_amended_residue_aggregation_witness :
    (∃ w : ℚ, get_residue_scores true "max" c7positions c7rows 7
        = .ok (some (round4 w))
      ∧ w ∈ [(1 : ℚ) / 10, 9 / 10]
      ∧ ∀ x ∈ [(1 : ℚ) / 10, 9 / 10], x ≤ w)
    ∧ get_residue_scores true "max" c7positions c7rows 7 = .ok (some (9 / 10)) := by
  have hcoll : collectedValuesE true c7positions c7rows 7
      = .ok [(1 : ℚ) / 10, 9 / 10] := rfl
  have h := (c7_amended_residue_aggregation true "max" c7positions c7rows 7
    [(1 : ℚ) / 10, 9 / 10] hcoll).2 (List.cons_ne_nil _ _)
  refine ⟨h.1 rfl, ?_⟩
  have hmaxv : reduceValues "max" [(1 : ℚ) / 10, 9 / 10] = 9 / 10 := by
    rw [reduceValues_cons, if_pos rfl]
    simp only [List.foldl_cons, List.foldl_nil]
    rw [max_eq_right (by norm_num)]
  have hr4 : round4 ((9 : ℚ) / 10) = 9 / 10 := by
    unfold round4 roundHalfEven
    have h1 : ((9 : ℚ) / 10) * 10000 = ((9000 : Int) : ℚ) := by norm_num
    rw [h1, Int.floor_intCast]
    norm_num
  have hscore : get_residue_scores true "max" c7positions c7rows 7
      = .ok (some (round4 (reduceValues "max" [(1 : ℚ) / 10, 9 / 10]))) := by
    unfold get_residue_scores
    rw [hcoll]
  rw [hscore, hmaxv, hr4]

end VarPredBrowser
